import Mathlib

/-!
Verification development for the dsa task scheduler (task.hpp of the
daltonwoodard/task repository). The definitions below are a shallow
embedding of the C++ source: the per-worker synchronized queue
(`task_queue`), the type-erased one-shot `task` with its completion
channel, and the `task_system` pool with its submission dispatch,
worker drain loop, wait-to-completion loop and reset. Machine integers
of type std::size_t are modelled as natural numbers reduced modulo 2^64.
Mutex acquisition outcomes of the try variants are supplied by boolean
oracles; condition-variable waiting is modelled by stating theorems at
resumption points, and thread interleaving is modelled by explicit
operation sequences and micro-action traces.
-/

/-- Modulus of std::size_t values. -/
def U64 : Nat := 2 ^ 64

/-- Increment of a std::size_t value (operator++ with wraparound). -/
def uinc (n : Nat) : Nat := (n + 1) % U64

/-- Decrement of a std::size_t value (operator-- with wraparound). -/
def udec (n : Nat) : Nat := (n + (U64 - 1)) % U64

/-- Shared state of the completion channel paired with a task: the
promise inside the packaged_task. `none` models a not-yet-ready future;
`some (Except.ok v)` a stored return value; `some (Except.error e)` a
captured callable-raised failure with payload `e`. -/
abbrev channel (R : Type) := Option (Except String R)

/-- Embedding of task::task_model: the stored callable `_f` (whose
codomain `Except String R` models normal return versus a raised
failure), the argument values `_args` bound at submission time, and the
shared state `_state` of the underlying packaged_task. -/
structure task_model (A R : Type) where
  _f : A → Except String R
  _args : A
  _state : channel R

/-- Embedding of task_model::invoke_: apply the packaged_task to the
stored arguments. The packaged_task captures the returned value or the
raised failure into its shared state; it never lets a callable-raised
failure escape to the invoker. -/
def task_model.invoke_ {A R : Type} (m : task_model A R) : task_model A R :=
  { m with _state := some (m._f m._args) }

/-- Caller-facing future paired with a task, holding (a view of) the
shared state of the packaged_task. -/
structure future (R : Type) where
  _state : channel R

/-- Embedding of task_model::get_future. -/
def task_model.get_future {A R : Type} (m : task_model A R) : future R :=
  ⟨m._state⟩

/-- Embedding of std::future::get at a given moment: `none` means the
call would still block; `some r` is the value returned or the failure
re-raised once the channel is ready. -/
def future.get {R : Type} (fut : future R) : channel R :=
  fut._state

/-- Exceptions thrown synchronously by scheduler code on the invoking
thread (as opposed to failures captured in a completion channel). -/
inductive cxx_error where
  | logic_error (msg : String)
  | other_error (msg : String)
deriving DecidableEq

/-- Embedding of class task: `_t` is the unique_ptr to the type-erased
task_concept; `none` models a default-constructed or moved-from task
holding a null pointer. -/
structure task (A R : Type) where
  _t : Option (task_model A R)

/-- Embedding of make_task: build the task and the paired future from a
callable and its bound arguments. -/
def make_task {A R : Type} (f : A → Except String R) (x : A) :
    task A R × future R :=
  (⟨some ⟨f, x, none⟩⟩, task_model.get_future ⟨f, x, none⟩)

/-- Lift a side-effect-free, deterministic, non-raising callable into
the callable model. -/
def pure_callable {A R : Type} (f : A → R) : A → Except String R :=
  fun a => Except.ok (f a)

/-- Embedding of task::operator(): invoke the held task_model if the
pointer is non-null, otherwise throw std::logic_error synchronously.
The result is the synchronous outcome on the invoking thread; the
post-invocation task is returned in the ok case. -/
def task.call {A R : Type} (t : task A R) : Except cxx_error (task A R) :=
  match t._t with
  | some m => Except.ok ⟨some m.invoke_⟩
  | none => Except.error (cxx_error.logic_error "bad task access")

/-- Embedding of the move constructor and move assignment of task: the
destination receives the pointer, the source is left holding null. The
first component is the destination, the second the moved-from source. -/
def task.move {A R : Type} (t : task A R) : task A R × task A R :=
  (⟨t._t⟩, ⟨none⟩)

/-- Embedding of task_system::task_queue state: the FIFO `tasks_` with
its front at the list head, and the done latch `done_`. The mutex and
condition variable are modelled by the try-lock oracles and resumption
conditions of the operations below. -/
structure task_queue (J : Type) where
  tasks_ : List J
  done_ : Bool
deriving DecidableEq

/-- A freshly constructed empty queue. -/
def task_queue.init {J : Type} : task_queue J := ⟨[], false⟩

/-- Embedding of task_queue::set_done: latch done and notify all
waiters. -/
def task_queue.set_done {J : Type} (q : task_queue J) : task_queue J :=
  { q with done_ := true }

/-- Embedding of task_queue::try_pop. `lockOk` is the outcome of the
non-blocking mutex acquire; on acquire failure or an empty FIFO the
result is not-ok with an empty task, otherwise the head job is removed
and returned. -/
def task_queue.try_pop {J : Type} (lockOk : Bool) (q : task_queue J) :
    (Bool × Option J) × task_queue J :=
  match lockOk, q.tasks_ with
  | false, _ => ((false, none), q)
  | true, [] => ((false, none), q)
  | true, t :: ts => ((true, some t), { q with tasks_ := ts })

/-- Result of task_queue::try_push: the returned flag, the queue after
the call, what the caller job variable still holds after the call
(`some t` when the job was not moved from), and how many waiters were
notified by the call. -/
structure TryPushRes (J : Type) where
  ok : Bool
  queue : task_queue J
  retained : Option J
  notified : Nat
deriving DecidableEq

/-- Embedding of task_queue::try_push. `lockOk` is the outcome of the
non-blocking mutex acquire; on failure the queue is untouched and the
caller retains the job, on success the job is appended at the back and
one waiter is notified. -/
def task_queue.try_push {J : Type} (lockOk : Bool) (t : J)
    (q : task_queue J) : TryPushRes J :=
  if lockOk then
    ⟨true, { q with tasks_ := q.tasks_ ++ [t] }, none, 1⟩
  else
    ⟨false, q, some t, 0⟩

/-- Embedding of task_queue::pop at its resumption point: the mutex is
held and the wait loop `while (tasks_.empty() && !done_) cv_.wait(...)`
has exited. If the FIFO is empty the result is not-ok with an empty
task, otherwise the head job is removed and returned. -/
def task_queue.pop {J : Type} (q : task_queue J) :
    (Bool × Option J) × task_queue J :=
  match q.tasks_ with
  | [] => ((false, none), q)
  | t :: ts => ((true, some t), { q with tasks_ := ts })

/-- Embedding of task_queue::push: blocking enqueue at the back,
always succeeds. -/
def task_queue.push {J : Type} (t : J) (q : task_queue J) : task_queue J :=
  { q with tasks_ := q.tasks_ ++ [t] }

/-- Embedding of the task_system state: the queue vector `queues_`,
the per-worker exited flags `exited_`, the worker count `nthreads_`,
the dispatch counter `current_index_` and the atomic outstanding-work
counter `queued_` (both std::size_t values, kept below 2^64 by the
operations). The thread handles and the allocator carry no queue or
counter state and are not part of the embedding. -/
structure task_system (J : Type) where
  queues_ : List (task_queue J)
  exited_ : List Bool
  nthreads_ : Nat
  current_index_ : Nat
  queued_ : Nat
deriving DecidableEq

/-- Read of queues_[i]; out-of-range reads (never performed by the
source on well-formed pools) yield a fresh empty queue. -/
def getQ {J : Type} (qs : List (task_queue J)) (i : Nat) : task_queue J :=
  qs.getD i task_queue.init

/-- Write of queues_[i]. -/
def setQ {J : Type} (qs : List (task_queue J)) (i : Nat) (q : task_queue J) :
    List (task_queue J) :=
  qs.set i q

/-- Append job `t` at the back of queues_[i]. -/
def pushAtQ {J : Type} (qs : List (task_queue J)) (i : Nat) (t : J) :
    List (task_queue J) :=
  setQ qs i ((getQ qs i).push t)

/-- Sum of the FIFO lengths of a queue vector. -/
def sumLen {J : Type} (qs : List (task_queue J)) : Nat :=
  (qs.map (fun q => q.tasks_.length)).sum

/-- Number of jobs accepted by some queue and not yet popped by a
worker: the sum of the FIFO lengths. -/
def totalJobs {J : Type} (st : task_system J) : Nat :=
  sumLen st.queues_

/-- The pool state produced by the constructor for N workers: N fresh
queues, exited flags initialised false, both counters zero. -/
def task_system.mkInit (J : Type) (N : Nat) : task_system J :=
  ⟨List.replicate N task_queue.init, List.replicate N false, N, 0, 0⟩

/-- Micro actions performed by task_system::push on the shared
outstanding-work counter and queues, in program order. `incr` and
`decr` act on queued_; `attempt i ok` is a try_push on queue i with
mutex-acquire outcome ok; `block i` is the unconditional blocking push
on queue i. -/
inductive PushAction where
  | incr
  | decr
  | attempt (i : Nat) (ok : Bool)
  | block (i : Nat)
deriving DecidableEq

/-- Embedding of the dispatch loop body of task_system::push: attempt
number `k`, with `r` attempts remaining out of 10 * nthreads_. Each
attempt speculatively increments queued_, try-pushes on queue
(idx + k) % nthreads_ (the index arithmetic is std::size_t arithmetic),
and reverts the increment exactly when the try_push failed. When all
attempts are exhausted, queued_ is incremented once more and the job is
push-ed unconditionally on queue idx % nthreads_. The value is the pool
state after the call together with the micro-action trace. -/
def push_scan {J : Type} (oracle : Nat → Bool) (idx : Nat) (t : J) :
    Nat → Nat → task_system J → task_system J × List PushAction
  | _, 0, st =>
    let st1 := { st with queued_ := uinc st.queued_ }
    let i := idx % st.nthreads_
    ({ st1 with queues_ := pushAtQ st1.queues_ i t },
     [PushAction.incr, PushAction.block i])
  | k, r + 1, st =>
    let st1 := { st with queued_ := uinc st.queued_ }
    let i := ((idx + k) % U64) % st.nthreads_
    let res := (getQ st1.queues_ i).try_push (oracle k) t
    if res.ok then
      ({ st1 with queues_ := setQ st1.queues_ i res.queue },
       [PushAction.incr, PushAction.attempt i true])
    else
      let rest :=
        push_scan oracle idx t (k + 1) r { st1 with queued_ := udec st1.queued_ }
      (rest.1,
       PushAction.incr :: PushAction.attempt i false :: PushAction.decr :: rest.2)

/-- Embedding of task_system::push: read the dispatch counter (a
std::size_t value), post-increment it, and run the dispatch loop with
10 * nthreads_ try-push attempts. -/
def task_system.push {J : Type} (oracle : Nat → Bool) (t : J)
    (st : task_system J) : task_system J × List PushAction :=
  let idx := st.current_index_ % U64
  let st1 := { st with current_index_ := uinc st.current_index_ }
  push_scan oracle idx t 0 (10 * st.nthreads_) st1

/-- The micro-action trace of the claimed dispatch protocol for `m`
failed attempts beginning at attempt number `k`: each failed attempt
contributes an increment of queued_, a failed try_push, and the
reverting decrement. -/
def failTraceFrom (idx N k : Nat) : Nat → List PushAction
  | 0 => []
  | m + 1 =>
    PushAction.incr :: PushAction.attempt (((idx + k) % U64) % N) false ::
      PushAction.decr :: failTraceFrom idx N (k + 1) m

/-- Effect of one micro action of a push of job `t` on the pool state,
used to exhibit the intermediate moments of a push execution. -/
def apply_push_action {J : Type} (t : J) (st : task_system J) :
    PushAction → task_system J
  | PushAction.incr => { st with queued_ := uinc st.queued_ }
  | PushAction.decr => { st with queued_ := udec st.queued_ }
  | PushAction.attempt i ok =>
    if ok then { st with queues_ := pushAtQ st.queues_ i t } else st
  | PushAction.block i => { st with queues_ := pushAtQ st.queues_ i t }

/-- Replay a micro-action trace from a starting state; replaying the
leading segments of a trace gives the moments of the execution. -/
def replay_push {J : Type} (t : J) : List PushAction → task_system J →
    task_system J
  | [], st => st
  | a :: rest, st => replay_push t rest (apply_push_action t st a)

/-- One steal attempt of the worker loop of task_system::run: try_pop
on queue `i` with mutex-acquire outcome `lockOk`; on success the
outstanding-work counter is decremented (after the pop) and the job is
invoked and dropped. -/
def steal_step {J : Type} (lockOk : Bool) (i : Nat) (st : task_system J) :
    task_system J :=
  let r := (getQ st.queues_ i).try_pop lockOk
  if r.1.1 then
    { st with queues_ := setQ st.queues_ i r.2, queued_ := udec st.queued_ }
  else
    st

/-- One full round of the drain phase of task_system::run, attempt
number `k` with `r` queues remaining out of `N`: a try_pop on queue
(id + k) % N for each k below N, decrementing queued_ and executing the
job on each success. -/
def drain_round_go {J : Type} (lockOk : Nat → Bool) (id N : Nat) :
    Nat → task_system J → Nat → task_system J
  | _, st, 0 => st
  | k, st, r + 1 =>
    drain_round_go lockOk id N (k + 1) (steal_step (lockOk k) ((id + k) % N) st) r

/-- One full round of the drain phase across all nthreads_ queues. -/
def drain_round {J : Type} (lockOk : Nat → Bool) (id : Nat)
    (st : task_system J) : task_system J :=
  drain_round_go lockOk id st.nthreads_ 0 st st.nthreads_

/-- Write of exited_[id] performed by a worker when it terminates. -/
def set_exited {J : Type} (id : Nat) (st : task_system J) : task_system J :=
  { st with exited_ := st.exited_.set id true }

/-- Embedding of the drain phase of task_system::run after the blocking
pop returned not-ok: while the observed queued_ is non-zero, perform
one drain round and yield; the environment function `env` is the
interference of the other threads during the yield, and `lockOks`
supplies the mutex-acquire outcomes of each round. When queued_ is
observed zero the worker sets its exited flag and terminates. `fuel`
bounds the number of rounds; `none` means the loop was still running
when the fuel ran out. -/
def drain_loop {J : Type} (id : Nat) :
    (Nat → task_system J → task_system J) → (Nat → Nat → Bool) → Nat →
      task_system J → Option (task_system J)
  | _, _, 0, st =>
    if st.queued_ = 0 then some (set_exited id st) else none
  | env, lockOks, f + 1, st =>
    if st.queued_ = 0 then some (set_exited id st)
    else
      drain_loop id (fun n => env (n + 1)) (fun n => lockOks (n + 1)) f
        (env 0 (drain_round (lockOks 0) id st))

/-- The pool state reached after `n` drain rounds (each followed by
its environment interference), used to characterize drain_loop. -/
def drain_iter {J : Type} (id : Nat) :
    (Nat → task_system J → task_system J) → (Nat → Nat → Bool) →
      task_system J → Nat → task_system J
  | _, _, st, 0 => st
  | env, lockOks, st, n + 1 =>
    drain_iter id (fun m => env (m + 1)) (fun m => lockOks (m + 1))
      (env 0 (drain_round (lockOks 0) id st)) n

/-- Embedding of the exited-flag check of task_system::wait_to_completion:
should_exit starts true and is and-ed with every flag. -/
def all_exited (l : List Bool) : Bool :=
  l.foldl (fun a b => a && b) true

/-- Embedding of the loop of task_system::wait_to_completion over a
stream of observations: at iteration `i` the pair `obs i` is the read
of queued_ followed by the reads of the exited_ flags. If the counter
read is non-zero the loop continues; otherwise it returns when every
flag read true. `fuel` bounds the iterations; the value is the
iteration at which the call returned. -/
def wait_loop (obs : Nat → Nat × List Bool) : Nat → Nat → Option Nat
  | _, 0 => none
  | i, f + 1 =>
    if (obs i).1 ≠ 0 then wait_loop obs (i + 1) f
    else if all_exited (obs i).2 then some i
    else wait_loop obs (i + 1) f

/-- Embedding of task_system::wait_to_completion, observing the pool
state `stObs i` at iteration `i`. -/
def task_system.wait_to_completion {J : Type}
    (stObs : Nat → task_system J) (fuel : Nat) : Option Nat :=
  wait_loop (fun i => ((stObs i).queued_, (stObs i).exited_)) 0 fuel

/-- Embedding of task_system::reset: after join (done on every queue
and joining every worker, which leaves the discarded queues behind),
the thread and queue vectors are cleared, queued_ is stored zero, and
nthreads_ fresh queues and workers are created. The exited_ vector is
not written. -/
def task_system.reset {J : Type} (st : task_system J) : task_system J :=
  { st with queues_ := List.replicate st.nthreads_ task_queue.init,
            queued_ := 0 }

/-- Complete pool operations, each atomic at the granularity of one
source-level operation: a full submission (task_system::push), one
steal of the worker loop (try_pop followed by the decrement on
success), one blocking pop of the worker loop at its resumption point
(followed by the decrement on success), and task_system::done. -/
inductive pool_op (J : Type) where
  | push (oracle : Nat → Bool) (t : J)
  | steal (lockOk : Bool) (i : Nat)
  | take (i : Nat)
  | mark_done

/-- Effect of one complete pool operation on the pool state. -/
def apply_op {J : Type} : pool_op J → task_system J → task_system J
  | pool_op.push oracle t, st => (task_system.push oracle t st).1
  | pool_op.steal lockOk i, st => steal_step lockOk i st
  | pool_op.take i, st =>
    let r := (getQ st.queues_ i).pop
    if r.1.1 then
      { st with queues_ := setQ st.queues_ i r.2, queued_ := udec st.queued_ }
    else st
  | pool_op.mark_done, st =>
    { st with queues_ := st.queues_.map task_queue.set_done }

/-- Effect of a sequence of complete pool operations. -/
def apply_ops {J : Type} : List (pool_op J) → task_system J → task_system J
  | [], st => st
  | op :: ops, st => apply_ops ops (apply_op op st)

/-- Operations on a single queue, with the mutex-acquire outcomes of
the try variants made explicit. -/
inductive queue_op (J : Type) where
  | push (t : J)
  | try_push (lockOk : Bool) (t : J)
  | pop
  | try_pop (lockOk : Bool)
  | set_done

/-- Run a sequence of operations on a single queue, recording the jobs
accepted by the queue and the jobs handed out by it, both in order.
The value is the final queue, the accepted list and the popped list. -/
def queue_run {J : Type} : List (queue_op J) → task_queue J →
    task_queue J × List J × List J
  | [], q => (q, [], [])
  | op :: ops, q =>
    let step : task_queue J × List J × List J :=
      match op with
      | queue_op.push t => (q.push t, [t], [])
      | queue_op.try_push lockOk t =>
        let r := q.try_push lockOk t
        (r.queue, if r.ok then [t] else [], [])
      | queue_op.pop =>
        let r := q.pop
        (r.2, [], match r.1.2 with | some t => [t] | none => [])
      | queue_op.try_pop lockOk =>
        let r := q.try_pop lockOk
        (r.2, [], match r.1.2 with | some t => [t] | none => [])
      | queue_op.set_done => (q.set_done, [], [])
    let rest := queue_run ops step.1
    (rest.1, step.2.1 ++ rest.2.1, step.2.2 ++ rest.2.2)

/-! Arithmetic facts about std::size_t values. -/

theorem U64_pos : 0 < U64 := by decide

theorem uinc_of_lt {n : Nat} (h : n + 1 < U64) : uinc n = n + 1 := by
  unfold uinc
  exact Nat.mod_eq_of_lt h

theorem udec_of_pos {n : Nat} (h0 : 0 < n) (h1 : n < U64) : udec n = n - 1 := by
  have hU : 0 < U64 := U64_pos
  unfold udec
  have h2 : n + (U64 - 1) = (n - 1) + U64 := by omega
  rw [h2, Nat.add_mod_right, Nat.mod_eq_of_lt (by omega)]

theorem udec_uinc {n : Nat} (h : n < U64) : udec (uinc n) = n := by
  have hU : 0 < U64 := U64_pos
  unfold uinc udec
  rcases Nat.lt_or_ge (n + 1) U64 with h1 | h1
  · rw [Nat.mod_eq_of_lt h1]
    have h2 : n + 1 + (U64 - 1) = n + U64 := by omega
    rw [h2, Nat.add_mod_right, Nat.mod_eq_of_lt h]
  · have h2 : n + 1 = U64 := by omega
    rw [h2, Nat.mod_self, Nat.zero_add, Nat.mod_eq_of_lt (by omega)]
    omega

/-! Facts about queue-vector reads, writes and job counts. -/

theorem length_setQ {J : Type} (qs : List (task_queue J)) (i : Nat)
    (q : task_queue J) : (setQ qs i q).length = qs.length := by
  simp [setQ]

theorem length_pushAtQ {J : Type} (qs : List (task_queue J)) (i : Nat)
    (t : J) : (pushAtQ qs i t).length = qs.length := by
  simp [pushAtQ, setQ]

theorem getQ_nonempty_lt {J : Type} {qs : List (task_queue J)} {i : Nat}
    (h : (getQ qs i).tasks_ ≠ []) : i < qs.length := by
  by_contra hge
  push_neg at hge
  rw [getQ, List.getD_eq_default _ _ hge] at h
  exact h rfl

theorem sumLen_pushAtQ {J : Type} :
    ∀ (qs : List (task_queue J)) (i : Nat) (t : J), i < qs.length →
      sumLen (pushAtQ qs i t) = sumLen qs + 1 := by
  intro qs
  induction qs with
  | nil => intro i t h; simp at h
  | cons q rest ih =>
    intro i t h
    cases i with
    | zero =>
      simp [pushAtQ, setQ, getQ, sumLen, task_queue.push]
      omega
    | succ i =>
      have hi : i < rest.length := by simpa using h
      have := ih i t hi
      simp [pushAtQ, setQ, getQ, sumLen, List.set] at this ⊢
      omega

theorem sumLen_popAtQ {J : Type} :
    ∀ (qs : List (task_queue J)) (i : Nat) (t : J) (ts : List J) (d : Bool),
      getQ qs i = ⟨t :: ts, d⟩ →
      sumLen (setQ qs i ⟨ts, d⟩) + 1 = sumLen qs := by
  intro qs
  induction qs with
  | nil =>
    intro i t ts d h
    simp [getQ, task_queue.init, List.getD] at h
  | cons q rest ih =>
    intro i t ts d h
    cases i with
    | zero =>
      simp [getQ] at h
      simp [setQ, sumLen, h]
      omega
    | succ i =>
      have h' : getQ rest i = ⟨t :: ts, d⟩ := by simpa [getQ] using h
      have := ih i t ts d h'
      simp [setQ, sumLen, List.set] at this ⊢
      omega

theorem sumLen_set_done {J : Type} :
    ∀ qs : List (task_queue J),
      sumLen (qs.map task_queue.set_done) = sumLen qs := by
  intro qs
  induction qs with
  | nil => rfl
  | cons q rest ih => simp [sumLen, task_queue.set_done] at ih ⊢; omega

/-! Characterization of the dispatch loop of task_system::push. -/

theorem push_scan_current_index {J : Type} (oracle : Nat → Bool) (idx : Nat)
    (t : J) :
    ∀ (r k : Nat) (st : task_system J),
      (push_scan oracle idx t k r st).1.current_index_ = st.current_index_ := by
  intro r
  induction r with
  | zero => intro k st; rfl
  | succ r ih =>
    intro k st
    rw [push_scan]
    by_cases hk : oracle k
    · simp [hk, task_queue.try_push]
    · simp [hk, task_queue.try_push]
      exact ih (k + 1) _

theorem push_scan_all_fail {J : Type} (oracle : Nat → Bool) (idx : Nat)
    (t : J) :
    ∀ (r k : Nat) (st : task_system J), st.queued_ < U64 →
      (∀ j, j < r → oracle (k + j) = false) →
      push_scan oracle idx t k r st =
        ({ st with queued_ := uinc st.queued_,
                   queues_ := pushAtQ st.queues_ (idx % st.nthreads_) t },
         failTraceFrom idx st.nthreads_ k r ++
           [PushAction.incr, PushAction.block (idx % st.nthreads_)]) := by
  intro r
  induction r with
  | zero =>
    intro k st hq hf
    rfl
  | succ r ih =>
    intro k st hq hf
    have h0 : oracle k = false := by simpa using hf 0 (Nat.succ_pos r)
    rw [push_scan]
    simp only [h0, task_queue.try_push, if_false, Bool.false_eq_true]
    have hrest : ({ st with queued_ := udec (uinc st.queued_) } :
        task_system J) = st := by
      cases st
      simp [udec_uinc hq]
    rw [hrest]
    have hf' : ∀ j, j < r → oracle (k + 1 + j) = false := by
      intro j hj
      have := hf (j + 1) (by omega)
      rw [show k + 1 + j = k + (j + 1) by omega]
      exact this
    rw [ih (k + 1) st hq hf']
    rw [failTraceFrom]
    simp

theorem push_scan_success {J : Type} (oracle : Nat → Bool) (idx : Nat)
    (t : J) :
    ∀ (j0 k r : Nat) (st : task_system J), st.queued_ < U64 →
      oracle (k + j0) = true → (∀ j, j < j0 → oracle (k + j) = false) →
      j0 < r →
      push_scan oracle idx t k r st =
        ({ st with queued_ := uinc st.queued_,
                   queues_ := pushAtQ st.queues_
                     (((idx + (k + j0)) % U64) % st.nthreads_) t },
         failTraceFrom idx st.nthreads_ k j0 ++
           [PushAction.incr,
            PushAction.attempt (((idx + (k + j0)) % U64) % st.nthreads_)
              true]) := by
  intro j0
  induction j0 with
  | zero =>
    intro k r st hq hk hf hr
    cases r with
    | zero => omega
    | succ r =>
      rw [push_scan]
      have hk' : oracle k = true := by simpa using hk
      simp only [hk', task_queue.try_push, if_true]
      rfl
  | succ j0 ih =>
    intro k r st hq hk hf hr
    cases r with
    | zero => omega
    | succ r =>
      rw [push_scan]
      have h0 : oracle k = false := by simpa using hf 0 (Nat.succ_pos j0)
      simp only [h0, task_queue.try_push, if_false, Bool.false_eq_true]
      have hrest : ({ st with queued_ := udec (uinc st.queued_) } :
          task_system J) = st := by
        cases st
        simp [udec_uinc hq]
      rw [hrest]
      have hk2 : oracle (k + 1 + j0) = true := by
        rw [show k + 1 + j0 = k + (j0 + 1) by omega]
        exact hk
      have hf2 : ∀ j, j < j0 → oracle (k + 1 + j) = false := by
        intro j hj
        have := hf (j + 1) (by omega)
        rw [show k + 1 + j = k + (j + 1) by omega]
        exact this
      rw [ih (k + 1) r st hq hk2 hf2 (by omega)]
      rw [failTraceFrom]
      simp [show k + 1 + j0 = k + (j0 + 1) by omega]

/-- Every call of task_system::push post-increments the dispatch
counter, nets one increment of the outstanding-work counter, and
appends the job at the back of exactly one queue, whose index is below
nthreads_. -/
theorem push_result {J : Type} (st : task_system J) (oracle : Nat → Bool)
    (t : J) (hq : st.queued_ < U64) (hn : 0 < st.nthreads_) :
    ∃ i, i < st.nthreads_ ∧
      (task_system.push oracle t st).1 =
        { st with current_index_ := uinc st.current_index_,
                  queued_ := uinc st.queued_,
                  queues_ := pushAtQ st.queues_ i t } := by
  by_cases hex : ∃ k, k < 10 * st.nthreads_ ∧ oracle k = true
  · obtain ⟨k, hk, hko⟩ := hex
    have hex2 : ∃ k, oracle k = true := ⟨k, hko⟩
    have hk0 : oracle (Nat.find hex2) = true := Nat.find_spec hex2
    have hmin : ∀ j, j < Nat.find hex2 → oracle j = false := by
      intro j hj
      have := Nat.find_min hex2 hj
      revert this
      cases oracle j <;> simp
    have hlt : Nat.find hex2 < 10 * st.nthreads_ :=
      lt_of_le_of_lt (Nat.find_min' hex2 hko) hk
    refine ⟨((st.current_index_ % U64 + Nat.find hex2) % U64) % st.nthreads_,
      Nat.mod_lt _ hn, ?_⟩
    show (push_scan oracle (st.current_index_ % U64) t 0 (10 * st.nthreads_)
      { st with current_index_ := uinc st.current_index_ }).1 = _
    rw [push_scan_success oracle (st.current_index_ % U64) t (Nat.find hex2) 0
      (10 * st.nthreads_) { st with current_index_ := uinc st.current_index_ }
      hq (by simpa using hk0) (by simpa using hmin) hlt]
    simp
  · push_neg at hex
    have hall : ∀ j, j < 10 * st.nthreads_ → oracle j = false := by
      intro j hj
      have := hex j hj
      revert this
      cases oracle j <;> simp
    refine ⟨(st.current_index_ % U64) % st.nthreads_, Nat.mod_lt _ hn, ?_⟩
    show (push_scan oracle (st.current_index_ % U64) t 0 (10 * st.nthreads_)
      { st with current_index_ := uinc st.current_index_ }).1 = _
    rw [push_scan_all_fail oracle (st.current_index_ % U64) t
      (10 * st.nthreads_) 0 { st with current_index_ := uinc st.current_index_ }
      hq (by simpa using hall)]

/-- The wait loop returns only at an iteration whose counter read was
zero and whose exited-flag reads were all true. -/
theorem wait_loop_ret (obs : Nat → Nat × List Bool) :
    ∀ (fuel i j : Nat), wait_loop obs i fuel = some j →
      (obs j).1 = 0 ∧ all_exited (obs j).2 = true := by
  intro fuel
  induction fuel with
  | zero => intro i j h; simp [wait_loop] at h
  | succ f ih =>
    intro i j h
    rw [wait_loop] at h
    by_cases h1 : (obs i).1 ≠ 0
    · rw [if_pos h1] at h
      exact ih (i + 1) j h
    · rw [if_neg h1] at h
      by_cases h2 : all_exited (obs i).2 = true
      · rw [if_pos h2] at h
        injection h with h
        subst h
        push_neg at h1
        exact ⟨h1, h2⟩
      · rw [if_neg h2] at h
        exact ih (i + 1) j h

/-- The drain loop terminates exactly at the first round boundary at
which the outstanding-work counter is observed zero, having performed
one full drain round (followed by the yield-time interference) for
every earlier boundary, and its final act is to set the exited flag of
this worker. -/
theorem drain_loop_ret {J : Type} :
    ∀ (fuel : Nat) (env : Nat → task_system J → task_system J)
      (lockOks : Nat → Nat → Bool) (id : Nat) (st st' : task_system J),
      drain_loop id env lockOks fuel st = some st' →
      ∃ n, n ≤ fuel ∧ (drain_iter id env lockOks st n).queued_ = 0 ∧
        (∀ m, m < n → (drain_iter id env lockOks st m).queued_ ≠ 0) ∧
        st' = set_exited id (drain_iter id env lockOks st n) := by
  intro fuel
  induction fuel with
  | zero =>
    intro env lockOks id st st' h
    rw [drain_loop] at h
    by_cases h0 : st.queued_ = 0
    · rw [if_pos h0] at h
      injection h with h
      exact ⟨0, le_refl 0, h0, by omega, h.symm⟩
    · rw [if_neg h0] at h
      exact absurd h (by simp)
  | succ f ih =>
    intro env lockOks id st st' h
    rw [drain_loop] at h
    by_cases h0 : st.queued_ = 0
    · rw [if_pos h0] at h
      injection h with h
      exact ⟨0, Nat.zero_le _, h0, by omega, h.symm⟩
    · rw [if_neg h0] at h
      obtain ⟨n, hn, hz, hnz, hst⟩ := ih (fun n => env (n + 1))
        (fun n => lockOks (n + 1)) id (env 0 (drain_round (lockOks 0) id st))
        st' h
      refine ⟨n + 1, by omega, ?_, ?_, ?_⟩
      · exact hz
      · intro m hm
        cases m with
        | zero => exact h0
        | succ m => exact hnz m (by omega)
      · exact hst

/-- Effect of one complete pool operation on the job count, the
counter, and the shape parameters: the operation-level counter
invariant is preserved. -/
theorem apply_op_invariant {J : Type} (op : pool_op J) (st : task_system J)
    (hinv : st.queued_ = totalJobs st)
    (hwf : st.queues_.length = st.nthreads_)
    (hn : 0 < st.nthreads_)
    (hbound : totalJobs st + 1 < U64) :
    (apply_op op st).queued_ = totalJobs (apply_op op st) ∧
    totalJobs (apply_op op st) ≤ totalJobs st + 1 ∧
    (apply_op op st).queues_.length = (apply_op op st).nthreads_ ∧
    (apply_op op st).nthreads_ = st.nthreads_ := by
  simp only [totalJobs] at hinv hbound ⊢
  have hqlt : st.queued_ < U64 := by omega
  cases op with
  | push oracle t =>
    obtain ⟨i, hi, heq⟩ := push_result st oracle t hqlt hn
    have hilen : i < st.queues_.length := by omega
    have hsum : sumLen (pushAtQ st.queues_ i t) = sumLen st.queues_ + 1 :=
      sumLen_pushAtQ st.queues_ i t hilen
    have huinc : uinc st.queued_ = st.queued_ + 1 := uinc_of_lt (by omega)
    simp only [apply_op, heq]
    refine ⟨by omega, by omega, ?_, trivial⟩
    simp [length_pushAtQ, hwf]
  | steal lockOk i =>
    simp only [apply_op, steal_step]
    cases lockOk with
    | false =>
      simp only [task_queue.try_pop]
      rw [if_neg (by simp)]
      exact ⟨hinv, by omega, hwf, rfl⟩
    | true =>
      cases hts : (getQ st.queues_ i).tasks_ with
      | nil =>
        simp only [task_queue.try_pop, hts]
        rw [if_neg (by simp)]
        exact ⟨hinv, by omega, hwf, rfl⟩
      | cons t ts =>
        simp only [task_queue.try_pop, hts]
        rw [if_pos trivial]
        have hq0 : getQ st.queues_ i = ⟨t :: ts, (getQ st.queues_ i).done_⟩ := by
          rw [← hts]
        have hsum := sumLen_popAtQ st.queues_ i t ts (getQ st.queues_ i).done_ hq0
        have hpos : 0 < sumLen st.queues_ := by omega
        have hudec : udec st.queued_ = st.queued_ - 1 :=
          udec_of_pos (by omega) hqlt
        refine ⟨?_, ?_, ?_, rfl⟩
        · show udec st.queued_ =
            sumLen (setQ st.queues_ i ⟨ts, (getQ st.queues_ i).done_⟩)
          omega
        · show sumLen (setQ st.queues_ i ⟨ts, (getQ st.queues_ i).done_⟩) ≤
            sumLen st.queues_ + 1
          omega
        · show (setQ st.queues_ i ⟨ts, (getQ st.queues_ i).done_⟩).length =
            st.nthreads_
          rw [length_setQ, hwf]
  | take i =>
    simp only [apply_op]
    cases hts : (getQ st.queues_ i).tasks_ with
    | nil =>
      simp only [task_queue.pop, hts]
      rw [if_neg (by simp)]
      exact ⟨hinv, by omega, hwf, rfl⟩
    | cons t ts =>
      simp only [task_queue.pop, hts]
      rw [if_pos trivial]
      have hq0 : getQ st.queues_ i = ⟨t :: ts, (getQ st.queues_ i).done_⟩ := by
        rw [← hts]
      have hsum := sumLen_popAtQ st.queues_ i t ts (getQ st.queues_ i).done_ hq0
      have hpos : 0 < sumLen st.queues_ := by omega
      have hudec : udec st.queued_ = st.queued_ - 1 :=
        udec_of_pos (by omega) hqlt
      refine ⟨?_, ?_, ?_, rfl⟩
      · show udec st.queued_ =
          sumLen (setQ st.queues_ i ⟨ts, (getQ st.queues_ i).done_⟩)
        omega
      · show sumLen (setQ st.queues_ i ⟨ts, (getQ st.queues_ i).done_⟩) ≤
          sumLen st.queues_ + 1
        omega
      · show (setQ st.queues_ i ⟨ts, (getQ st.queues_ i).done_⟩).length =
          st.nthreads_
        rw [length_setQ, hwf]
  | mark_done =>
    simp only [apply_op]
    have hsum := sumLen_set_done (J := J) st.queues_
    refine ⟨?_, ?_, ?_, trivial⟩
    · show st.queued_ = sumLen (st.queues_.map task_queue.set_done)
      omega
    · show sumLen (st.queues_.map task_queue.set_done) ≤ sumLen st.queues_ + 1
      omega
    · show (st.queues_.map task_queue.set_done).length = st.nthreads_
      rw [List.length_map, hwf]

/-- The operation-level counter invariant holds after any sequence of
complete pool operations, short of counter overflow. -/
theorem apply_ops_invariant {J : Type} :
    ∀ (ops : List (pool_op J)) (st : task_system J),
      st.queued_ = totalJobs st → st.queues_.length = st.nthreads_ →
      0 < st.nthreads_ → totalJobs st + ops.length < U64 →
      (apply_ops ops st).queued_ = totalJobs (apply_ops ops st) := by
  intro ops
  induction ops with
  | nil => intro st hinv hwf hn hbound; exact hinv
  | cons op ops ih =>
    intro st hinv hwf hn hbound
    have hbound1 : totalJobs st + 1 < U64 := by
      have : (op :: ops).length = ops.length + 1 := rfl
      omega
    obtain ⟨h1, h2, h3, h4⟩ := apply_op_invariant op st hinv hwf hn hbound1
    show (apply_ops ops (apply_op op st)).queued_ = _
    refine ih (apply_op op st) h1 h3 (by omega) ?_
    have : (op :: ops).length = ops.length + 1 := rfl
    omega

/-- C2 (amended): at the granularity of complete operations, the
outstanding-work counter queued_ equals the number of Jobs accepted by
some queue and not yet popped by a worker. The claimed moment-by-moment
equality fails inside an operation; see the counterexample. -/
theorem C2_queued_invariant (J : Type) (N : Nat) (ops : List (pool_op J))
    (hN : 0 < N) (hlen : ops.length < U64) :
    (apply_ops ops (task_system.mkInit J N)).queued_ =
      totalJobs (apply_ops ops (task_system.mkInit J N)) := by
  refine apply_ops_invariant ops (task_system.mkInit J N) ?_ ?_ hN ?_
  · simp [task_system.mkInit, totalJobs, sumLen, task_queue.init]
  · simp [task_system.mkInit]
  · have : totalJobs (task_system.mkInit J N) = 0 := by
      simp [task_system.mkInit, totalJobs, sumLen, task_queue.init]
    omega

theorem C2_queued_invariant_witness :
    0 < 1 ∧ ([pool_op.push (fun _ => true) (5 : Nat)].length < U64) ∧
    (apply_ops [pool_op.push (fun _ => true) (5 : Nat)]
        (task_system.mkInit Nat 1)).queued_ =
      totalJobs (apply_ops [pool_op.push (fun _ => true) (5 : Nat)]
        (task_system.mkInit Nat 1)) :=
  ⟨by decide, by decide,
   C2_queued_invariant Nat 1 [pool_op.push (fun _ => true) (5 : Nat)]
     (by decide) (by decide)⟩

/-- C2 counterexample: the claimed equality does not hold at every
moment. Take a pool of one worker with no outstanding work and push a
job with an always-succeeding lock oracle. The micro-action trace of
the push is incr followed by a successful try_push, and replaying the
whole trace reproduces the result of the push; but at the moment right
after the incr action the counter reads 1 while no queue holds a job. -/
theorem C2_moment_counterexample :
    (task_system.push (fun _ => true) (0 : Nat)
        (task_system.mkInit Nat 1)).2 =
      [PushAction.incr, PushAction.attempt 0 true] ∧
    replay_push 0 (task_system.push (fun _ => true) (0 : Nat)
        (task_system.mkInit Nat 1)).2
        { task_system.mkInit Nat 1 with current_index_ := 1 } =
      (task_system.push (fun _ => true) (0 : Nat)
        (task_system.mkInit Nat 1)).1 ∧
    (replay_push (0 : Nat) [PushAction.incr]
        { task_system.mkInit Nat 1 with current_index_ := 1 }).queued_ = 1 ∧
    totalJobs (replay_push (0 : Nat) [PushAction.incr]
        { task_system.mkInit Nat 1 with current_index_ := 1 }) = 0 := by
  refine ⟨?_, ?_, ?_, ?_⟩ <;> rfl

/-- C3: every call of task_system::push reads the dispatch counter
value idx and post-increments the counter once; it performs up to
10 * nthreads_ try-push attempts on queues (idx + k) mod nthreads_ in
std::size_t arithmetic, incrementing the outstanding-work counter
before each try-push and decrementing it again exactly when that
try-push fails; it returns on the first successful try-push, and when
all attempts fail it increments the outstanding-work counter once more
and performs one unconditional blocking push on queue
idx mod nthreads_. The micro-action trace and the resulting state are
characterized for both cases. -/
theorem C3_push_dispatch (J : Type) (st : task_system J)
    (oracle : Nat → Bool) (t : J) (hq : st.queued_ < U64) :
    (task_system.push oracle t st).1.current_index_ =
      uinc st.current_index_ ∧
    (∀ k0, k0 < 10 * st.nthreads_ → oracle k0 = true →
      (∀ j, j < k0 → oracle j = false) →
      task_system.push oracle t st =
        ({ st with current_index_ := uinc st.current_index_,
                   queued_ := uinc st.queued_,
                   queues_ := pushAtQ st.queues_
                     (((st.current_index_ % U64 + k0) % U64) % st.nthreads_)
                     t },
         failTraceFrom (st.current_index_ % U64) st.nthreads_ 0 k0 ++
           [PushAction.incr,
            PushAction.attempt
              (((st.current_index_ % U64 + k0) % U64) % st.nthreads_)
              true])) ∧
    ((∀ j, j < 10 * st.nthreads_ → oracle j = false) →
      task_system.push oracle t st =
        ({ st with current_index_ := uinc st.current_index_,
                   queued_ := uinc st.queued_,
                   queues_ := pushAtQ st.queues_
                     ((st.current_index_ % U64) % st.nthreads_) t },
         failTraceFrom (st.current_index_ % U64) st.nthreads_ 0
             (10 * st.nthreads_) ++
           [PushAction.incr,
            PushAction.block ((st.current_index_ % U64) % st.nthreads_)])) := by
  refine ⟨?_, ?_, ?_⟩
  · show (push_scan oracle (st.current_index_ % U64) t 0 (10 * st.nthreads_)
      { st with current_index_ := uinc st.current_index_ }).1.current_index_ = _
    rw [push_scan_current_index]
  · intro k0 hk0 hko hmin
    show push_scan oracle (st.current_index_ % U64) t 0 (10 * st.nthreads_)
      { st with current_index_ := uinc st.current_index_ } = _
    rw [push_scan_success oracle (st.current_index_ % U64) t k0 0
      (10 * st.nthreads_) { st with current_index_ := uinc st.current_index_ }
      hq (by simpa using hko) (by simpa using hmin) hk0]
    simp
  · intro hall
    show push_scan oracle (st.current_index_ % U64) t 0 (10 * st.nthreads_)
      { st with current_index_ := uinc st.current_index_ } = _
    rw [push_scan_all_fail oracle (st.current_index_ % U64) t
      (10 * st.nthreads_) 0 { st with current_index_ := uinc st.current_index_ }
      hq (by simpa using hall)]

theorem C3_push_dispatch_witness :
    ((task_system.mkInit Nat 2).queued_ < U64) ∧
    task_system.push (fun k => decide (k = 1)) (7 : Nat)
        (task_system.mkInit Nat 2) =
      ({ task_system.mkInit Nat 2 with
           current_index_ := uinc (task_system.mkInit Nat 2).current_index_,
           queued_ := uinc (task_system.mkInit Nat 2).queued_,
           queues_ := pushAtQ (task_system.mkInit Nat 2).queues_
             ((((task_system.mkInit Nat 2).current_index_ % U64 + 1) % U64) % 2)
             7 },
       failTraceFrom ((task_system.mkInit Nat 2).current_index_ % U64) 2 0 1 ++
         [PushAction.incr,
          PushAction.attempt
            ((((task_system.mkInit Nat 2).current_index_ % U64 + 1) % U64) % 2)
            true]) :=
  ⟨by decide,
   (C3_push_dispatch Nat (task_system.mkInit Nat 2) (fun k => decide (k = 1))
       7 (by decide)).2.1 1 (by decide) (by decide) (by decide)⟩

/-- A single queue is FIFO: across any operation sequence, the jobs
handed out followed by the jobs still held are exactly the jobs held
initially followed by the jobs accepted, all in order; hence pops
return jobs in push order. -/
theorem queue_run_fifo {J : Type} :
    ∀ (ops : List (queue_op J)) (q : task_queue J),
      (queue_run ops q).2.2 ++ (queue_run ops q).1.tasks_ =
        q.tasks_ ++ (queue_run ops q).2.1 := by
  intro ops
  induction ops with
  | nil => intro q; simp [queue_run]
  | cons op ops ih =>
    intro q
    cases op with
    | push t =>
      simp [queue_run, task_queue.push, ih]
    | try_push lockOk t =>
      cases lockOk with
      | false => simp [queue_run, task_queue.try_push, ih]
      | true => simp [queue_run, task_queue.try_push, ih]
    | pop =>
      cases hts : q.tasks_ with
      | nil =>
        simp only [queue_run, task_queue.pop, hts, List.nil_append]
        rw [ih q, hts]
        simp
      | cons t ts => simp [queue_run, task_queue.pop, hts, ih]
    | try_pop lockOk =>
      cases lockOk with
      | false => simp [queue_run, task_queue.try_pop, ih]
      | true =>
        cases hts : q.tasks_ with
        | nil =>
          simp only [queue_run, task_queue.try_pop, hts, List.nil_append]
          rw [ih q, hts]
          simp
        | cons t ts => simp [queue_run, task_queue.try_pop, hts, ih]
    | set_done =>
      simp [queue_run, task_queue.set_done, ih]

/-- C8: within a single queue, jobs are popped, and hence executed, in
the order they were pushed: over any operation sequence the popped
jobs followed by the jobs still queued equal the initial jobs followed
by the accepted jobs in order. Moreover, in a pool of one worker every
submission lands at the back of queue 0 regardless of the lock oracle,
so the single worker completes jobs in submission order. -/
theorem C8_fifo_per_queue :
    (∀ (J : Type) (ops : List (queue_op J)) (q : task_queue J),
      (queue_run ops q).2.2 ++ (queue_run ops q).1.tasks_ =
        q.tasks_ ++ (queue_run ops q).2.1) ∧
    (∀ (J : Type) (st : task_system J) (oracle : Nat → Bool) (t : J),
      st.nthreads_ = 1 → st.queued_ < U64 →
      (task_system.push oracle t st).1.queues_ = pushAtQ st.queues_ 0 t) := by
  refine ⟨fun J ops q => queue_run_fifo ops q, ?_⟩
  intro J st oracle t h1 hq
  obtain ⟨i, hi, heq⟩ := push_result st oracle t hq (by omega)
  have hi0 : i = 0 := by omega
  rw [heq, hi0]

theorem C8_fifo_per_queue_witness :
    (task_system.mkInit Nat 1).nthreads_ = 1 ∧
    (task_system.mkInit Nat 1).queued_ < U64 ∧
    (task_system.push (fun _ => false) (9 : Nat)
        (task_system.mkInit Nat 1)).1.queues_ =
      pushAtQ (task_system.mkInit Nat 1).queues_ 0 9 :=
  ⟨rfl, by decide,
   C8_fifo_per_queue.2 Nat (task_system.mkInit Nat 1) (fun _ => false) 9
     rfl (by decide)⟩

/-- C1: submitting a side-effect-free, deterministic callable f with
argument x through the pool places the constructed task, unchanged, at
the back of exactly one queue; and invoking that task writes
Except.ok (f x) into the completion channel, so awaiting the returned
future yields exactly f x. -/
theorem C1_result_fidelity (A R : Type) (f : A → R) (x : A)
    (st : task_system (task A R)) (oracle : Nat → Bool)
    (hq : st.queued_ < U64) (hn : 0 < st.nthreads_) :
    (∃ i, i < st.nthreads_ ∧
      (task_system.push oracle (make_task (pure_callable f) x).1 st).1 =
        { st with current_index_ := uinc st.current_index_,
                  queued_ := uinc st.queued_,
                  queues_ := pushAtQ st.queues_ i
                    (make_task (pure_callable f) x).1 }) ∧
    (∃ m', task.call (make_task (pure_callable f) x).1 =
        Except.ok ⟨some m'⟩ ∧
      m'.get_future.get = some (Except.ok (f x))) :=
  ⟨push_result st oracle (make_task (pure_callable f) x).1 hq hn,
   ⟨⟨pure_callable f, x, some (Except.ok (f x))⟩, rfl, rfl⟩⟩

theorem C1_result_fidelity_witness :
    (task_system.mkInit (task Nat Nat) 1).queued_ < U64 ∧
    0 < (task_system.mkInit (task Nat Nat) 1).nthreads_ ∧
    ((∃ i, i < (task_system.mkInit (task Nat Nat) 1).nthreads_ ∧
      (task_system.push (fun _ => true)
          (make_task (pure_callable (fun n => n + 1)) 3).1
          (task_system.mkInit (task Nat Nat) 1)).1 =
        { task_system.mkInit (task Nat Nat) 1 with
            current_index_ :=
              uinc (task_system.mkInit (task Nat Nat) 1).current_index_,
            queued_ := uinc (task_system.mkInit (task Nat Nat) 1).queued_,
            queues_ := pushAtQ (task_system.mkInit (task Nat Nat) 1).queues_ i
              (make_task (pure_callable (fun n => n + 1)) 3).1 }) ∧
    (∃ m', task.call (make_task (pure_callable (fun n => n + 1)) 3).1 =
        Except.ok ⟨some m'⟩ ∧
      m'.get_future.get = some (Except.ok (3 + 1)))) :=
  ⟨by decide, by decide,
   C1_result_fidelity Nat Nat (fun n => n + 1) 3
     (task_system.mkInit (task Nat Nat) 1) (fun _ => true)
     (by decide) (by decide)⟩

/-- C4: wait_to_completion returns only at an iteration at which the
outstanding-work counter was read zero and every exited flag was read
true; in particular the counter reads zero at the moment of return. -/
theorem C4_wait_to_completion_post (J : Type)
    (stObs : Nat → task_system J) (fuel j : Nat)
    (h : task_system.wait_to_completion stObs fuel = some j) :
    (stObs j).queued_ = 0 ∧ all_exited (stObs j).exited_ = true :=
  wait_loop_ret (fun i => ((stObs i).queued_, (stObs i).exited_)) fuel 0 j h

theorem C4_wait_to_completion_post_witness :
    task_system.wait_to_completion
        (fun _ => ({ task_system.mkInit Nat 1 with exited_ := [true] })) 1 =
      some 0 ∧
    ({ task_system.mkInit Nat 1 with exited_ := [true] } :
        task_system Nat).queued_ = 0 ∧
    all_exited ({ task_system.mkInit Nat 1 with exited_ := [true] } :
        task_system Nat).exited_ = true :=
  ⟨by decide,
   C4_wait_to_completion_post Nat
     (fun _ => ({ task_system.mkInit Nat 1 with exited_ := [true] })) 1 0
     (by decide)⟩

/-- C5: when the drain loop of a worker terminates, it has repeated one
full round of try-pop over all queues, with yield-time interference in
between, for every earlier round boundary at which the outstanding-work
counter was observed non-zero; it exits exactly at the first boundary
at which the counter is observed zero, and its final act is to set this
worker exited flag. -/
theorem C5_draining_termination (J : Type) (fuel : Nat)
    (env : Nat → task_system J → task_system J)
    (lockOks : Nat → Nat → Bool) (id : Nat) (st st' : task_system J)
    (h : drain_loop id env lockOks fuel st = some st') :
    ∃ n, n ≤ fuel ∧ (drain_iter id env lockOks st n).queued_ = 0 ∧
      (∀ m, m < n → (drain_iter id env lockOks st m).queued_ ≠ 0) ∧
      st' = set_exited id (drain_iter id env lockOks st n) :=
  drain_loop_ret fuel env lockOks id st st' h

theorem C5_draining_termination_witness :
    drain_loop 0 (fun _ s => s) (fun _ _ => false) 0
        (task_system.mkInit Nat 1) =
      some (set_exited 0 (task_system.mkInit Nat 1)) ∧
    (∃ n, n ≤ 0 ∧
      (drain_iter 0 (fun _ s => s) (fun _ _ => false)
        (task_system.mkInit Nat 1) n).queued_ = 0 ∧
      (∀ m, m < n →
        (drain_iter 0 (fun _ s => s) (fun _ _ => false)
          (task_system.mkInit Nat 1) m).queued_ ≠ 0) ∧
      set_exited 0 (task_system.mkInit Nat 1) =
        set_exited 0 (drain_iter 0 (fun _ s => s) (fun _ _ => false)
          (task_system.mkInit Nat 1) n)) :=
  ⟨by decide,
   C5_draining_termination Nat 0 (fun _ s => s) (fun _ _ => false) 0
     (task_system.mkInit Nat 1) (set_exited 0 (task_system.mkInit Nat 1))
     (by decide)⟩

/-- C6: at the resumption point of the wait loop of task_queue::pop
(the FIFO non-empty or the done latch set), pop returns not-ok with no
job exactly when the FIFO is empty, in which case the done latch is set
and the queue is unchanged; otherwise it removes and returns the head
job of the FIFO. -/
theorem C6_pop_contract (J : Type) (q : task_queue J)
    (hres : q.tasks_ ≠ [] ∨ q.done_ = true) :
    ((q.pop.1.1 = false ∧ q.pop.1.2 = none) ↔ q.tasks_ = []) ∧
    (q.tasks_ = [] → q.done_ = true ∧ q.pop = ((false, none), q)) ∧
    (∀ t ts, q.tasks_ = t :: ts →
      q.pop = ((true, some t), { q with tasks_ := ts })) := by
  cases hts : q.tasks_ with
  | nil =>
    have hd : q.done_ = true := by
      rcases hres with h | h
      · exact absurd hts h
      · exact h
    refine ⟨?_, ?_, ?_⟩
    · simp [task_queue.pop, hts]
    · intro _
      exact ⟨hd, by simp [task_queue.pop, hts]⟩
    · intro t ts h
      exact absurd h (by simp)
  | cons t ts =>
    refine ⟨?_, ?_, ?_⟩
    · simp [task_queue.pop, hts]
    · intro h
      exact absurd h (by simp)
    · intro t' ts' h
      injection h with h1 h2
      subst h1
      subst h2
      simp [task_queue.pop, hts]

theorem C6_pop_contract_witness :
    ((⟨[], true⟩ : task_queue Nat).tasks_ ≠ [] ∨
      (⟨[], true⟩ : task_queue Nat).done_ = true) ∧
    ((((⟨[], true⟩ : task_queue Nat).pop.1.1 = false ∧
        (⟨[], true⟩ : task_queue Nat).pop.1.2 = none) ↔
      (⟨[], true⟩ : task_queue Nat).tasks_ = []) ∧
    ((⟨[], true⟩ : task_queue Nat).tasks_ = [] →
      (⟨[], true⟩ : task_queue Nat).done_ = true ∧
      (⟨[], true⟩ : task_queue Nat).pop =
        ((false, none), (⟨[], true⟩ : task_queue Nat))) ∧
    (∀ t ts, (⟨[], true⟩ : task_queue Nat).tasks_ = t :: ts →
      (⟨[], true⟩ : task_queue Nat).pop =
        ((true, some t), { (⟨[], true⟩ : task_queue Nat) with tasks_ := ts }))) :=
  ⟨by decide, C6_pop_contract Nat ⟨[], true⟩ (by decide)⟩

/-- C7: try_push with a failed non-blocking mutex acquire returns
not-ok, leaves the FIFO and the done latch unchanged, notifies nobody,
and the caller still holds the unmoved job; with the mutex acquired it
appends the job at the back of the FIFO, notifies exactly one waiter,
and returns ok with the caller job moved from. -/
theorem C7_try_push_contract (J : Type) (q : task_queue J) (t : J) :
    task_queue.try_push false t q = ⟨false, q, some t, 0⟩ ∧
    task_queue.try_push true t q =
      ⟨true, { q with tasks_ := q.tasks_ ++ [t] }, none, 1⟩ :=
  ⟨rfl, rfl⟩

/-- C9: invoking an empty or moved-from Job throws std::logic_error
"bad task access" synchronously on the invoking thread; invoking a
non-empty Job never throws synchronously, and a callable-raised
failure is captured in the completion channel instead, so the two
failure kinds are delivered through distinct channels. -/
theorem C9_bad_task_access (A R : Type) (m : task_model A R) (msg : String)
    (x : A) :
    task.call (⟨none⟩ : task A R) =
      Except.error (cxx_error.logic_error "bad task access") ∧
    ((task.move (⟨some m⟩ : task A R)).2 = (⟨none⟩ : task A R) ∧
      task.call (task.move (⟨some m⟩ : task A R)).2 =
        Except.error (cxx_error.logic_error "bad task access")) ∧
    task.call (⟨some m⟩ : task A R) = Except.ok ⟨some m.invoke_⟩ ∧
    (task_model.mk (fun _ : A => (Except.error msg : Except String R)) x
        none).invoke_._state = some (Except.error msg) :=
  ⟨rfl, ⟨rfl, rfl⟩, rfl, rfl⟩

/-- C10: reset rebuilds the queue vector, zeroes the outstanding-work
counter and leaves the dispatch counter alone, but never writes the
exited_ vector; hence when every flag was left true by the previous
worker generation, a wait_to_completion issued right after reset
returns at its very first observation because the counter reads zero
and every flag still reads true. -/
theorem C10_reset_exited_frame (J : Type) (st : task_system J) :
    (task_system.reset st).exited_ = st.exited_ ∧
    (task_system.reset st).queued_ = 0 ∧
    (task_system.reset st).queues_ =
      List.replicate st.nthreads_ task_queue.init ∧
    (task_system.reset st).current_index_ = st.current_index_ ∧
    (all_exited st.exited_ = true →
      task_system.wait_to_completion (fun _ => task_system.reset st) 1 =
        some 0) := by
  refine ⟨rfl, rfl, rfl, rfl, ?_⟩
  intro hall
  show wait_loop
    (fun i => ((task_system.reset st).queued_, (task_system.reset st).exited_))
    0 1 = some 0
  rw [wait_loop]
  simp [task_system.reset, hall]

theorem C10_reset_exited_frame_witness :
    all_exited (⟨[⟨[3], true⟩], [true, true], 2, 5, 7⟩ :
        task_system Nat).exited_ = true ∧
    task_system.wait_to_completion
        (fun _ => task_system.reset
          (⟨[⟨[3], true⟩], [true, true], 2, 5, 7⟩ : task_system Nat)) 1 =
      some 0 :=
  ⟨by decide,
   (C10_reset_exited_frame Nat
     (⟨[⟨[3], true⟩], [true, true], 2, 5, 7⟩ : task_system Nat)).2.2.2.2
     (by decide)⟩
